import Mathlib

/-!
Verification development for the ProVisors meet-scheduler bot.

The repository drives a browser against a membership portal
(`src/bot/hub_bot.py`), harvests directory contacts
(`src/bot/harvest_contacts.py`) and embeds them into a static page
(`src/bot/embed_contacts.py`).  The pure text-processing and
control-flow logic of those scripts is shallowly embedded here:
strings are `String`/`List Char`, page states reached after browser
navigation are abstract inputs, and each loop of the source becomes a
Lean function whose recursion mirrors the source's loop structure.
-/

namespace ProVisors


/-! ## Shared string primitives

These model the Python/JavaScript string operations used by the
scripts: substring containment (`in` / `includes`), whitespace
trimming (`strip` / `trim`), lower-casing (`lower` / `toLowerCase`)
and prefix slicing (`[:n]` / `substring(0, n)`). -/

/-- Boolean contiguous-sublist test: `containsSub pat s` holds when `pat`
occurs as a contiguous run inside `s`.  Models Python's `pat in s` and
JavaScript's `s.includes(pat)` on the underlying character lists. -/
def containsSub (pat : List Char) : List Char → Bool
  | [] => pat.isEmpty
  | c :: rest => pat.isPrefixOf (c :: rest) || containsSub pat rest

/-- String-level wrapper for `containsSub`: `strContains s pat` models the
Python expression `pat in s`. -/
def strContains (s pat : String) : Bool :=
  containsSub pat.toList s.toList

/-- Whitespace trim of a character list on both ends; models Python
`str.strip()` and JavaScript `String.prototype.trim()`. -/
def wsTrim (s : List Char) : List Char :=
  ((s.dropWhile Char.isWhitespace).reverse.dropWhile Char.isWhitespace).reverse

/-- String-level whitespace trim. -/
def strTrim (s : String) : String :=
  ⟨wsTrim s.toList⟩

/-- Character-wise lower-casing; models Python `str.lower()` and
JavaScript `toLowerCase()` on the ASCII data these scripts handle. -/
def lowerStr (s : String) : String :=
  ⟨s.toList.map Char.toLower⟩

/-- Prefix slice of at most `n` characters; models Python `s[:n]` and
JavaScript `s.substring(0, n)`. -/
def strTake (n : Nat) (s : String) : String :=
  ⟨s.toList.take n⟩

/-! ## `embed_contacts.py` — the escaping helper and the embedding

`build_js_array` converts the harvested contact list to a JavaScript
array literal; its inner helper `esc` escapes each string field with
`s.replace("\\", "\\\\").replace("'", "\\'")`. -/

/-- Python single-character `str.replace`: every occurrence of the
one-character pattern `pat` is replaced by `rep`. -/
def replaceChar (pat : Char) (rep : List Char) (s : List Char) : List Char :=
  s.flatMap fun c => if c = pat then rep else [c]

/-- The `esc` helper inside `build_js_array`: first double every
backslash, then escape every single quote
(`(s or "").replace("\\", "\\\\").replace("'", "\\'")`). -/
def esc (s : List Char) : List Char :=
  replaceChar '\'' ['\\', '\''] (replaceChar '\\' ['\\', '\\'] s)

/-- String-level `esc`. -/
def escStr (s : String) : String :=
  ⟨esc s.toList⟩

/-- Modelled from the spec: the standard single-quoted-string-literal
unescape — a backslash followed by any character denotes that
character; all other characters denote themselves.  This is the
spec side of the round-trip property; it is not code of the
repository. -/
def unescape : List Char → List Char
  | [] => []
  | [c] => [c]
  | c :: c₂ :: rest =>
    if c = '\\' then c₂ :: unescape rest else c :: unescape (c₂ :: rest)

/-- String-level unescape. -/
def unescapeStr (s : String) : String :=
  ⟨unescape s.toList⟩

/-- Per-character view of `esc`: the image of one input character. -/
def escChar (c : Char) : List Char :=
  if c = '\\' then ['\\', '\\'] else if c = '\'' then ['\\', '\''] else [c]

/-! ## `hub_bot.py` — the structured-text registration parser

`_scrape_registration_page` reads the rendered page as plain text,
splits it into trimmed lines and matches each line against the header
regex `^(.+?),\s*(Virtual|In-Person|In-Person & Virtual)\s*-\s*(.+)$`;
a match is kept only when the following line begins with a weekday
name.  The regex is embedded below by its backtracking semantics:
the lazy `(.+?),` tries comma split points left to right, the
alternation tries its branches in source order, and each `\s*`
before a non-space required character reduces to `dropWhile`. -/

/-- One parsed registration record, with the exact fields pushed by the
page script (`eventName, location, monthYear, startDate, endDate,
timezone, eventType, guestStatus`). -/
structure EventRec where
  eventName : String
  location : String
  monthYear : String
  startDate : String
  endDate : String
  timezone : String
  eventType : String
  guestStatus : String
deriving DecidableEq, Repr

/-- Weekday names of the validation regex
`/^(Monday|Tuesday|Wednesday|Thursday|Friday|Saturday|Sunday)/`. -/
def weekdayNames : List String :=
  ["Monday", "Tuesday", "Wednesday", "Thursday", "Friday", "Saturday", "Sunday"]

/-- The start-date validation: the line must begin with a weekday name. -/
def startsWithWeekday (s : String) : Bool :=
  weekdayNames.any fun w => w.toList.isPrefixOf s.toList

/-- Location alternatives of the header regex, in source order
(`Virtual|In-Person|In-Person & Virtual`). -/
def locAlternatives : List String :=
  ["Virtual", "In-Person", "In-Person & Virtual"]

/-- Matcher for the regex tail `\s*-\s*(.+)$`: skip whitespace, require
a dash, and capture the (necessarily nonempty) remainder.  When
everything after the dash is whitespace, backtracking leaves the last
character for the greedy `(.+)$`. -/
def afterDash (t : List Char) : Option (List Char) :=
  match t.dropWhile Char.isWhitespace with
  | '-' :: t₂ =>
    if t₂.isEmpty then none
    else
      let g := t₂.dropWhile Char.isWhitespace
      if g.isEmpty then
        match t₂.getLast? with
        | some c => some [c]
        | none => none
      else some g
  | _ => none

/-- Ordered-alternation matcher for
`(Virtual|In-Person|In-Person & Virtual)\s*-\s*(.+)$`: try each branch
in source order and keep the first whose continuation also matches. -/
def tryAlts : List String → List Char → Option (String × String)
  | [], _ => none
  | alt :: alts, tail =>
    if alt.toList.isPrefixOf tail then
      match afterDash (tail.drop alt.length) with
      | some g₃ => some (alt, ⟨g₃⟩)
      | none => tryAlts alts tail
    else tryAlts alts tail

/-- Header matcher for one line: the lazy `(.+?),` tries comma positions
left to right (the captured name must be nonempty), and after the comma
`\s*` skips whitespace before the location alternation.  On success the
captured name is trimmed, as in `match[1].trim()`. -/
def matchHeaderAux : List Char → List Char → Option (String × String × String)
  | _, [] => none
  | pre, c :: rest =>
    if c = ',' ∧ pre ≠ [] then
      match tryAlts locAlternatives (rest.dropWhile Char.isWhitespace) with
      | some (loc, my) => some (strTrim ⟨pre.reverse⟩, loc, my)
      | none => matchHeaderAux (c :: pre) rest
    else matchHeaderAux (c :: pre) rest

/-- Match one trimmed line against the registration header regex. -/
def matchHeader (line : List Char) : Option (String × String × String) :=
  matchHeaderAux [] line

/-- JavaScript `text.split('\n')` on character lists. -/
def splitLines : List Char → List (List Char)
  | [] => [[]]
  | c :: rest =>
    if c = '\n' then [] :: splitLines rest
    else
      match splitLines rest with
      | l :: ls => (c :: l) :: ls
      | [] => [[c]]

/-- The text-parsing core of `_scrape_registration_page`: split the page
text into trimmed lines; for each line matching the header regex, read
the five following lines (missing lines default to the empty string),
and keep the record only when the start-date line begins with a
weekday. -/
def scrape_registration_page (text : String) : List EventRec :=
  let lines := (splitLines text.toList).map fun l => strTrim ⟨l⟩
  (List.range lines.length).filterMap fun i =>
    match matchHeader (lines.getD i ("")).toList with
    | none => none
    | some (name, loc, my) =>
      let startDate := strTrim (lines.getD (i + 1) "")
      let endDate := strTrim (lines.getD (i + 2) "")
      let timezone := strTrim (lines.getD (i + 3) "")
      let eventType := strTrim (lines.getD (i + 4) "")
      let guestStatus := strTrim (lines.getD (i + 5) "")
      if startsWithWeekday startDate then
        some ⟨name, loc, my, startDate, endDate, timezone, eventType, guestStatus⟩
      else none

/-- The six-line synthetic block of the spec. -/
def syntheticBlock : String :=
  "Acme Mixer, Virtual - June 2024\nMonday, June 10, 10:00 AM\nMonday, June 10, 11:00 AM\nPacific\nMixer\nConfirmed"

/-- The same block with the weekday removed from the start line. -/
def syntheticBlockNoWeekday : String :=
  "Acme Mixer, Virtual - June 2024\nJune 10, 10:00 AM\nMonday, June 10, 11:00 AM\nPacific\nMixer\nConfirmed"

/-! ## `hub_bot.py` — pagination loops

Each extraction loop is embedded over an abstract run of the portal: a
function from the iteration index to the parse result of the page
shown at that point, plus a predicate telling whether a next-page
control is found.  This quantifies over every sequence of page-parse
results, including adversarial ones. -/

/-- Parse result of one registrations page, as returned by the in-page
script of `_scrape_registration_page` (`events`, `totalPages`,
`hasNext`). -/
structure RegPage where
  events : List EventRec
  totalPages : Nat
  hasNext : Bool

/-- Outcome of the `get_my_registrations` while-loop: accumulated
events, the final `page_num`, and the number of scrape iterations
performed. -/
structure RegLoopOut where
  allEvents : List EventRec
  pagesScraped : Nat
  iters : Nat

/-- The `while True` loop of `get_my_registrations`: scrape, extend,
stop when `hasNext` is false, stop when no next control is found,
advance `page_num` and stop past the hard safety limit of 20. -/
def regLoop (pages : Nat → RegPage) (nextFound : Nat → Bool)
    (pageNum : Nat) (acc : List EventRec) (iters : Nat) : RegLoopOut :=
  let r := pages pageNum
  let acc₂ := acc ++ r.events
  let iters₂ := iters + 1
  if ¬ r.hasNext then ⟨acc₂, pageNum, iters₂⟩
  else if ¬ nextFound pageNum then ⟨acc₂, pageNum, iters₂⟩
  else if h : pageNum + 1 > 20 then ⟨acc₂, pageNum + 1, iters₂⟩
  else regLoop pages nextFound (pageNum + 1) acc₂ iters₂
termination_by 21 - pageNum
decreasing_by omega

/-- The deduplication pass of `get_my_registrations`: the key is
`f"{evt['eventName']}|{evt['startDate']}"` and the first record with
each key is kept. -/
def eventKey (e : EventRec) : String :=
  e.eventName ++ "|" ++ e.startDate

/-- Fold of the dedup loop, carrying the `seen` key set. -/
def dedupEvents : List EventRec → List String → List EventRec
  | [], _ => []
  | e :: rest, seen =>
    if eventKey e ∈ seen then dedupEvents rest seen
    else e :: dedupEvents rest (eventKey e :: seen)

/-- The dictionary returned by `get_my_registrations`. -/
structure RegResult where
  events : List EventRec
  total : Nat
  pages_scraped : Nat

/-- Model of `get_my_registrations` over an abstract portal run: run the
pagination loop from page 1, deduplicate, and assemble the result. -/
def get_my_registrations (pages : Nat → RegPage) (nextFound : Nat → Bool) : RegResult :=
  let out := regLoop pages nextFound 1 [] 0
  let uniq := dedupEvents out.allEvents []
  ⟨uniq, uniq.length, out.pagesScraped⟩

/-- Parse result of one member-search page (`members`, `hasNext`). -/
structure MemPage where
  members : List (String × String × String)
  hasNext : Bool

/-- The `while True` loop of `search_members`: scrape, extend, stop when
`hasNext` is false or `page_num >= 5`, stop when no next control is
found, else advance. -/
def memLoop (pages : Nat → MemPage) (nextFound : Nat → Bool)
    (pageNum : Nat) (acc : List (String × String × String)) (iters : Nat) :
    List (String × String × String) × Nat :=
  let r := pages pageNum
  let acc₂ := acc ++ r.members
  let iters₂ := iters + 1
  if h : ¬ r.hasNext ∨ pageNum ≥ 5 then (acc₂, iters₂)
  else if ¬ nextFound pageNum then (acc₂, iters₂)
  else memLoop pages nextFound (pageNum + 1) acc₂ iters₂
termination_by 5 - pageNum
decreasing_by omega

/-- Scraped member card of `harvest_contacts.py` (the fields read from
each `ul.card-detail`). -/
structure Member where
  name : String
  profession : String
  focus : String
  email : String
  company : String
  homeGroup : String
  groups : String
  bio : String
  phone : String

/-- Parse result of one member-directory results page of
`harvest_contacts.py` (`members`, `currentPage`, `totalPages`). -/
structure ProfPage where
  members : List Member
  currentPage : Nat
  totalPages : Nat

/-- The `while True` loop of `search_by_profession`: scrape, extend,
stop when `currentPage >= totalPages`; otherwise follow a `Next` link
or a page-number link when either is found, else stop.  The source has
no hard iteration bound, so the embedding is fuel-indexed: `none`
means the loop was still running when the fuel ran out. -/
def profLoop (pages : Nat → ProfPage) (nextFound numFound : Nat → Bool) :
    Nat → Nat → List Member → Option (List Member)
  | 0, _, _ => none
  | fuel + 1, step, acc =>
    let r := pages step
    let acc₂ := acc ++ r.members
    if r.currentPage ≥ r.totalPages then some acc₂
    else if nextFound step then profLoop pages nextFound numFound fuel (step + 1) acc₂
    else if numFound step then profLoop pages nextFound numFound fuel (step + 1) acc₂
    else some acc₂

/-- Adversarial portal for the harvester: every page reports
`Page 1 of 2` and a next control is always present. -/
def advPages : Nat → ProfPage := fun _ => ⟨[], 1, 2⟩

/-- Adversarial next-control predicate: always found. -/
def advNext : Nat → Bool := fun _ => true

/-! ## `harvest_contacts.py` — aggregation, dedup and sort -/

/-- One output contact row of `harvest()`, with the exact fields written
to `contacts.json`. -/
structure Contact where
  name : String
  company : String
  profession : String
  groups : String
  notes : String
  source : String
  added : String
deriving DecidableEq, Repr

/-- Python `str.rstrip(",")`: remove every trailing comma. -/
def rstripCommas (s : List Char) : List Char :=
  (s.reverse.dropWhile (· = ',')).reverse

/-- The contact row appended by `harvest()` for one scraped member:
every field stripped, `groups` additionally right-stripped of commas,
`notes` taken from the scraped email, `source` fixed to `"hub"` and
`added` the current date (an abstract input here). -/
def mkContact (today : String) (m : Member) : Contact :=
  { name := strTrim m.name
    company := strTrim m.company
    profession := strTrim m.profession
    groups := strTrim ⟨rstripCommas (strTrim m.groups).toList⟩
    notes := strTrim m.email
    source := "hub"
    added := today }

/-- The aggregation loop of `harvest()` over the concatenation of the
per-profession search results, carrying the `seen` key set: the key is
the lower-cased trimmed name, and a member whose key is empty or
already seen is skipped. -/
def harvestFold (today : String) : List Member → List String → List Contact
  | [], _ => []
  | m :: rest, seen =>
    let key := lowerStr (strTrim m.name)
    if key = "" ∨ key ∈ seen then harvestFold today rest seen
    else mkContact today m :: harvestFold today rest (key :: seen)

/-- The sort comparator of `harvest()`:
`all_contacts.sort(key=lambda c: c["name"].lower())` compares
lower-cased names. -/
def contactLE (a b : Contact) : Bool :=
  decide (lowerStr a.name ≤ lowerStr b.name)

/-- The final list written to `contacts.json`: the aggregate sorted by
lower-cased name. -/
def harvestContacts (today : String) (ms : List Member) : List Contact :=
  (harvestFold today ms []).mergeSort contactLE

/-- The identity key of an output contact: its lower-cased name (the
name is stored already trimmed). -/
def contactKey (c : Contact) : String :=
  lowerStr c.name

/-- Registration record used by the C3 witness. -/
def c3evt₁ : EventRec :=
  ⟨"Acme Mixer", "Virtual", "June 2024", "Monday, June 10, 10:00 AM", "", "", "", ""⟩

/-- A second record sharing the (name, start-date) key of the first. -/
def c3evt₂ : EventRec :=
  ⟨"Acme Mixer", "In-Person", "July 2024", "Monday, June 10, 10:00 AM", "x", "", "", ""⟩

/-- Single-page portal run used by the C9 witness: one event, no
further pages. -/
def w9pages : Nat → RegPage := fun _ => ⟨[c3evt₁], 1, false⟩

/-- Next control never found in the C9 witness run. -/
def w9next : Nat → Bool := fun _ => false

/-! ## `hub_bot.py` — authenticator, action executor, session facade

The browser is abstracted by the URLs observed after each navigation
and by the presence of each located control; the models record which
side effects (form fill, submit, confirm click) the corresponding code
path performs. -/

/-- Abstract world seen by `login()`: the page URL after navigating to
the login URL, and the page URL after submitting the form. -/
structure LoginWorld where
  urlAfterGoto : String
  urlAfterSubmit : String

/-- Observable outcome of `login()`: the returned boolean, the
`logged_in` flag after the call, and whether the form was filled and
submitted on this path. -/
structure LoginOutcome where
  returned : Bool
  logged_in : Bool
  filledForm : Bool
  submitted : Bool
deriving DecidableEq, Repr

/-- The login path fragment checked by `login()`. -/
def loginPath : String := "/NC__Login"

/-- Model of `login()`: raise when credentials are absent; report success without
touching the form when the post-navigation URL no longer contains the
login path; otherwise fill and submit, then fail (flag left false) when
the URL still contains the login path, else succeed. -/
def login (email password : String) (w : LoginWorld) : Except String LoginOutcome :=
  if email = "" ∨ password = "" then
    .error ("PROVISORS_EMAIL and PROVISORS_PASSWORD must be set in .env")
  else if ¬ strContains w.urlAfterGoto loginPath then
    .ok ⟨true, true, false, false⟩
  else if strContains w.urlAfterSubmit loginPath then
    .ok ⟨false, false, true, true⟩
  else
    .ok ⟨true, true, true, true⟩

/-- Abstract world seen by `register_for_event`: whether a register/RSVP
control is found, the page text after the first click, whether a
confirm control is found, and the page text after the confirm click. -/
structure RegisterWorld where
  hasRegisterBtn : Bool
  textAfterClick : String
  hasConfirmBtn : Bool
  textAfterConfirm : String

/-- Observable outcome of `register_for_event`: the returned fields and
whether the second confirm control was clicked. -/
structure RegisterOutcome where
  success : Bool
  error : Option String
  page_text : Option String
  confirmClicked : Bool
deriving DecidableEq, Repr

/-- Confirmation vocabulary checked after the first click. -/
def confirmWordsFirst : List String :=
  ["confirmed", "registered", "registration complete", "success",
   "thank you", "you are registered"]

/-- Confirmation vocabulary checked after the confirm click. -/
def confirmWordsSecond : List String :=
  ["confirmed", "registered", "registration complete", "success", "thank you"]

/-- Models `any(word in page_text.lower() for word in words)`. -/
def anyWordIn (ws : List String) (t : String) : Bool :=
  ws.any fun w => strContains (lowerStr t) w

/-- Model of `register_for_event`: no CTA means a failure result with a
descriptive reason (no exception); a confirmation phrase after the
first click means success with no confirm click; otherwise at most one
confirm-click-and-check, after which the result carries the captured
page text. -/
def register_for_event (w : RegisterWorld) : RegisterOutcome :=
  if ¬ w.hasRegisterBtn then
    ⟨false, some ("No Register/RSVP button found on page"), none, false⟩
  else
    let pageText₁ := strTake 3000 w.textAfterClick
    if anyWordIn confirmWordsFirst pageText₁ then
      ⟨true, none, some (strTake 500 pageText₁), false⟩
    else if w.hasConfirmBtn then
      let pageText₂ := strTake 3000 w.textAfterConfirm
      ⟨anyWordIn confirmWordsSecond pageText₂, none, some (strTake 500 pageText₂), true⟩
    else
      ⟨false, none, some (strTake 500 pageText₁), false⟩

/-- The aggregate assembled by `full_sync()`, with its fields in source
order. -/
structure SyncResult (A B C D E : Type) where
  logged_in : Bool
  timestamp : String
  snapshot : A
  registrations : B
  upcoming_events : C
  event_search : D
  my_groups : E
deriving DecidableEq, Repr

/-- Model of `full_sync()`: ensure login, then run the five extractions in fixed
sequence; each step is an abstract fallible sub-operation, and any
raised error short-circuits the rest (Python exception propagation is
the `Except` monad here). -/
def full_sync {ε A B C D E : Type} (now : String)
    (ensureLoggedIn : Except ε Unit) (snapshot : Except ε A)
    (registrations : Except ε B) (upcomingEvents : Except ε C)
    (eventSearch : Except ε D) (groups : Except ε E) :
    Except ε (SyncResult A B C D E) := do
  let _ ← ensureLoggedIn
  let s ← snapshot
  let r ← registrations
  let e ← upcomingEvents
  let q ← eventSearch
  let g ← groups
  pure ⟨true, now, s, r, e, q, g⟩

/-! ## `embed_contacts.py` — block generation and page rewriting

`embed()` builds the delimited block and either substitutes it for the
existing marked region with
`re.sub(re.escape(START) + ".*?" + re.escape(END), js_block, html, flags=re.DOTALL)`
or, when the markers are absent, inserts it before the anchor comment
with `html.replace(anchor, js_block + "\n\n" + anchor)`.  `re.sub`
treats its replacement argument as a template: `\\` collapses to one
backslash.  That template processing is embedded faithfully for the
escapes the generated block can contain. -/

/-- The contact line written by `build_js_array` for one contact (the
`source` field is hardcoded to `'hub'` in the f-string). -/
def contactLine (c : Contact) : String :=
  "  \x7bname:'" ++ escStr c.name ++ "',company:'" ++ escStr c.company ++
    "',profession:'" ++ escStr c.profession ++ "',groups:'" ++ escStr c.groups ++
    "',notes:'" ++ escStr c.notes ++ "',source:'hub',added:'" ++ escStr c.added ++
    "'\x7d"

/-- The function `build_js_array`: the full JavaScript array literal. -/
def build_js_array (cs : List Contact) : String :=
  "const EMBEDDED_CONTACTS = [\n" ++ String.intercalate (",\n") (cs.map contactLine) ++ "\n];"

/-- Start marker bracketing the embedded block in `index.html`. -/
def START_MARKER : String := "// ── Embedded Contacts (auto-generated) ──"

/-- End marker bracketing the embedded block in `index.html`. -/
def END_MARKER : String := "// ── End Embedded Contacts ──"

/-- The anchor comment before which a fresh block is inserted. -/
def ANCHOR : String := "// ── Groups Data ──"

/-- The full delimited block `js_block` assembled by `embed()`. -/
def jsBlockOf (cs : List Contact) : String :=
  START_MARKER ++ "\n" ++ build_js_array cs ++ "\n" ++ END_MARKER

/-- Python `re` replacement-template processing, on the escape forms the
generated block can contain: `\\` collapses to a single backslash, and
a backslash before any other character is left alone (group references
`\g`/`\1` and letter escapes cannot occur in `build_js_array` output,
whose backslashes precede only backslashes or quotes). -/
def processTemplate : List Char → List Char
  | [] => []
  | '\\' :: c :: rest =>
    if c = '\\' then '\\' :: processTemplate rest
    else '\\' :: c :: processTemplate rest
  | c :: rest => c :: processTemplate rest

/-- Split around the first occurrence of `pat`: the part before the
occurrence and the part after it. -/
def splitFirstSub (pat : List Char) : List Char → Option (List Char × List Char)
  | [] => if pat.isEmpty then some ([], []) else none
  | c :: rest =>
    if pat.isPrefixOf (c :: rest) then some ([], (c :: rest).drop pat.length)
    else
      match splitFirstSub pat rest with
      | some (pre, post) => some (c :: pre, post)
      | none => none

/-- Model of `re.sub` for the pattern `escape(start) + ".*?" + escape(end)` with
DOTALL: repeatedly find the leftmost-shortest region from a start
marker through the first end marker after it, replace it by the
processed template, and continue after the region; text without a full
region is returned unchanged.  Fuel-indexed; each match consumes at
least one character, so `length + 1` fuel suffices. -/
def reSubMarked (startM endM repl : List Char) : Nat → List Char → List Char
  | 0, s => s
  | fuel + 1, s =>
    match splitFirstSub startM s with
    | none => s
    | some (pre, rest₁) =>
      match splitFirstSub endM rest₁ with
      | none => s
      | some (_, rest₂) => pre ++ repl ++ reSubMarked startM endM repl fuel rest₂

/-- Python `str.replace` (all occurrences, scanning left to right over
the original text). -/
def replaceAll (pat rep : List Char) : Nat → List Char → List Char
  | 0, s => s
  | fuel + 1, s =>
    match splitFirstSub pat s with
    | none => s
    | some (pre, post) => pre ++ rep ++ replaceAll pat rep fuel post

/-- Model of `embed()` restricted to its pure page rewriting: when both markers
occur in the page the marked region is substituted via `re.sub` (with
template processing of the replacement); otherwise the block is
inserted before the anchor comment; `none` models the `sys.exit(1)`
taken when the anchor is also missing. -/
def embedHtml (cs : List Contact) (html : String) : Option String :=
  let block := jsBlockOf cs
  if strContains html START_MARKER && strContains html END_MARKER then
    some ⟨reSubMarked START_MARKER.toList END_MARKER.toList
      (processTemplate block.toList) (html.toList.length + 1) html.toList⟩
  else if strContains html ANCHOR then
    some ⟨replaceAll ANCHOR.toList (block ++ "\n\n" ++ ANCHOR).toList
      (html.toList.length + 1) html.toList⟩
  else none

/-- The failing contact list: one contact whose name contains a
backslash. -/
def c7Contacts : List Contact :=
  [⟨"A\\B", "", "", "", "", "hub", "2024-06-01"⟩]

/-- A page that already carries both delimiter markers, in order. -/
def c7Html : String :=
  "<script>\n// ── Embedded Contacts (auto-generated) ──\nold\n// ── End Embedded Contacts ──\n</script>"

/-- The same page without markers, carrying only the anchor comment. -/
def c7HtmlAnchorOnly : String :=
  "<script>\n// ── Groups Data ──\n</script>"

/-! ## Lemmas and claim theorems -/

/-! ### Basic lemmas about the primitives -/

theorem dropWhile_head_false {p : α → Bool} {l : List α} {b : α} {t : List α}
    (h : l.dropWhile p = b :: t) : p b = false := by
  induction l with
  | nil => simp at h
  | cons c rest ih =>
    by_cases hc : p c
    · exact ih (by simpa [List.dropWhile_cons, hc] using h)
    · rw [List.dropWhile_cons] at h
      simp only [hc, Bool.false_eq_true, if_false] at h
      cases h
      simpa using hc

theorem wsTrim_eq_nil_forall {l : List Char} (h : wsTrim l = []) :
    ∀ x ∈ l, x.isWhitespace = true := by
  unfold wsTrim at h
  rw [List.reverse_eq_nil_iff, List.dropWhile_eq_nil_iff] at h
  intro x hx
  have hx' : x ∈ List.takeWhile Char.isWhitespace l ++ List.dropWhile Char.isWhitespace l := by
    rw [List.takeWhile_append_dropWhile]
    exact hx
  rcases List.mem_append.mp hx' with hxt | hxd
  · exact List.mem_takeWhile_imp hxt
  · exact h x (List.mem_reverse.mpr hxd)

theorem wsTrim_wsTrim_ne_nil {l : List Char} (h : wsTrim l ≠ []) :
    wsTrim (wsTrim l) ≠ [] := by
  intro hnil
  apply h
  have hall : ∀ x ∈ wsTrim l, x.isWhitespace = true := wsTrim_eq_nil_forall hnil
  unfold wsTrim
  rcases hd : (l.dropWhile Char.isWhitespace).reverse.dropWhile Char.isWhitespace with
    _ | ⟨b, t⟩
  · simp
  · exfalso
    have hb : b.isWhitespace = false := dropWhile_head_false hd
    have hbmem : b ∈ wsTrim l := by
      unfold wsTrim
      rw [hd]
      simp
    rw [hall b hbmem] at hb
    cases hb

theorem replaceChar_cons (pat : Char) (rep : List Char) (c : Char) (s : List Char) :
    replaceChar pat rep (c :: s) =
      (if c = pat then rep else [c]) ++ replaceChar pat rep s := by
  simp [replaceChar]

theorem replaceChar_append (pat : Char) (rep : List Char) (s t : List Char) :
    replaceChar pat rep (s ++ t) = replaceChar pat rep s ++ replaceChar pat rep t := by
  simp [replaceChar]

theorem esc_cons (c : Char) (s : List Char) :
    esc (c :: s) = escChar c ++ esc s := by
  by_cases hb : c = '\\'
  · subst hb
    simp [esc, escChar, replaceChar_cons, replaceChar_append, replaceChar]
  · by_cases hq : c = '\''
    · subst hq
      simp [esc, escChar, replaceChar_cons, replaceChar_append, replaceChar]
    · simp [esc, escChar, replaceChar_cons, replaceChar_append, replaceChar, hb, hq]

theorem unescape_escChar_append (c : Char) (t : List Char) :
    unescape (escChar c ++ t) = c :: unescape t := by
  by_cases hb : c = '\\'
  · subst hb
    simp [escChar, unescape]
  · by_cases hq : c = '\''
    · subst hq
      simp [escChar, unescape]
    · cases t with
      | nil => simp [escChar, hb, hq, unescape]
      | cons d rest => simp [escChar, hb, hq, unescape]

theorem unescape_esc (s : List Char) : unescape (esc s) = s := by
  induction s with
  | nil => rfl
  | cons c rest ih =>
    rw [esc_cons, unescape_escChar_append, ih]

theorem esc_injective : Function.Injective esc := by
  intro a b hab
  have := congrArg unescape hab
  simpa [unescape_esc] using this

/-- C2.  Escaping with `build_js_array`'s helper (double each backslash,
then escape each single quote) round-trips through the standard
single-quoted-literal unescape, for every string — in particular for
strings containing backslashes and single quotes — and is therefore
injective, with the unescape as left inverse (equivalently, the escape
is a right inverse of the unescape). -/
theorem escape_roundtrip_and_injective :
    (∀ s : String, unescapeStr (escStr s) = s) ∧ Function.Injective escStr := by
  constructor
  · intro s
    have h : unescape (esc s.toList) = s.toList := unescape_esc s.toList
    apply String.ext
    simpa [unescapeStr, escStr] using h
  · intro a b hab
    have h : esc a.toList = esc b.toList := by
      have := congrArg String.toList hab
      simpa [escStr] using this
    have := esc_injective h
    exact String.ext (by simpa using this)

/-- C2 witness: the round trip evaluated on a concrete string containing
both a backslash and a single quote. -/
theorem escape_roundtrip_witness :
    unescapeStr (escStr ("O'Brien \\ Sons")) = "O'Brien \\ Sons" :=
  escape_roundtrip_and_injective.1 ("O'Brien \\ Sons")

/-- C4.  On the six-line synthetic block the parser yields exactly one
record with event name `Acme Mixer`, location `Virtual` and a start
date beginning with `Monday`; with the weekday removed from the start
line, the candidate header is rejected and the parser yields zero
records. -/
theorem scrape_registration_page_synthetic :
    scrape_registration_page syntheticBlock =
      [⟨"Acme Mixer", "Virtual", "June 2024", "Monday, June 10, 10:00 AM",
        "Monday, June 10, 11:00 AM", "Pacific", "Mixer", "Confirmed"⟩] ∧
    "Monday".toList.isPrefixOf ("Monday, June 10, 10:00 AM").toList = true ∧
    scrape_registration_page syntheticBlockNoWeekday = [] := by
  refine ⟨?_, by decide, ?_⟩ <;> decide

theorem profLoop_adv_none : ∀ fuel step acc,
    profLoop advPages advNext advNext fuel step acc = none := by
  intro fuel
  induction fuel with
  | zero => intro step acc; rfl
  | succ n ih =>
    intro step acc
    simp only [profLoop, advPages, advNext]
    exact ih (step + 1) (acc ++ [])

theorem regLoop_iters_bound (pages : Nat → RegPage) (nextFound : Nat → Bool) :
    ∀ n pageNum acc iters, 21 - pageNum ≤ n →
      (regLoop pages nextFound pageNum acc iters).iters ≤ iters + max 1 (21 - pageNum) := by
  intro n
  induction n with
  | zero =>
    intro pageNum acc iters hn
    rw [regLoop]
    split_ifs with h1 h2 h3 <;>
      first
      | exact (by omega : iters + 1 ≤ iters + max 1 (21 - pageNum))
      | (exfalso; omega)
  | succ n ih =>
    intro pageNum acc iters hn
    rw [regLoop]
    split_ifs with h1 h2 h3 <;>
      first
      | exact (by omega : iters + 1 ≤ iters + max 1 (21 - pageNum))
      | (have hrec := ih (pageNum + 1) (acc ++ (pages pageNum).events) (iters + 1) (by omega)
         omega)

theorem memLoop_iters_bound (pages : Nat → MemPage) (nextFound : Nat → Bool) :
    ∀ n pageNum acc iters, 5 - pageNum ≤ n →
      (memLoop pages nextFound pageNum acc iters).2 ≤ iters + max 1 (6 - pageNum) := by
  intro n
  induction n with
  | zero =>
    intro pageNum acc iters hn
    rw [memLoop]
    split_ifs with h1 h2 <;>
      first
      | exact (by omega : iters + 1 ≤ iters + max 1 (6 - pageNum))
      | (exfalso
         rcases not_or.mp h1 with ⟨-, h5⟩
         omega)
  | succ n ih =>
    intro pageNum acc iters hn
    rw [memLoop]
    split_ifs with h1 h2 <;>
      first
      | exact (by omega : iters + 1 ≤ iters + max 1 (6 - pageNum))
      | (have hrec := ih (pageNum + 1) (acc ++ (pages pageNum).members) (iters + 1) (by omega)
         rcases not_or.mp h1 with ⟨-, h5⟩
         omega)

/-! ### Deduplication lemmas for `get_my_registrations` -/

theorem dedupEvents_sublist : ∀ (l : List EventRec) (seen : List String),
    (dedupEvents l seen).Sublist l := by
  intro l
  induction l with
  | nil => intro seen; simp [dedupEvents]
  | cons e rest ih =>
    intro seen
    rw [dedupEvents]
    split_ifs with h
    · exact (ih seen).cons e
    · exact (ih (eventKey e :: seen)).cons₂ e

theorem dedupEvents_keys : ∀ (l : List EventRec) (seen : List String),
    ((dedupEvents l seen).map eventKey).Nodup ∧
      ∀ k ∈ (dedupEvents l seen).map eventKey, k ∉ seen := by
  intro l
  induction l with
  | nil => intro seen; simp [dedupEvents]
  | cons e rest ih =>
    intro seen
    rw [dedupEvents]
    split_ifs with h
    · exact ih seen
    · constructor
      · refine List.nodup_cons.mpr ⟨?_, (ih (eventKey e :: seen)).1⟩
        intro hmem
        exact (ih (eventKey e :: seen)).2 _ hmem (List.mem_cons_self _ _)
      · intro k hk
        rcases List.mem_cons.mp hk with hk | hk
        · exact hk ▸ h
        · intro hks
          exact (ih (eventKey e :: seen)).2 _ hk (List.mem_cons_of_mem _ hks)

theorem dedupEvents_find? : ∀ (l : List EventRec) (seen : List String) (k : String),
    k ∉ seen →
      (dedupEvents l seen).find? (fun e => eventKey e == k) =
        l.find? (fun e => eventKey e == k) := by
  intro l
  induction l with
  | nil => intro seen k _; simp [dedupEvents]
  | cons e rest ih =>
    intro seen k hk
    rw [dedupEvents]
    by_cases hke : eventKey e = k
    · have hseen : eventKey e ∉ seen := by
        rw [hke]; exact hk
      rw [if_neg hseen]
      simp [List.find?_cons, hke]
    · have hbeq : (eventKey e == k) = false := by
        simp [hke]
      split_ifs with h
      · rw [ih seen k hk]
        simp [List.find?_cons, hbeq]
      · have hk' : k ∉ eventKey e :: seen :=
          fun hmem => by
            rcases List.mem_cons.mp hmem with rfl | hmem
            · exact hke rfl
            · exact hk hmem
        simp only [List.find?_cons, hbeq]
        exact ih (eventKey e :: seen) k hk'

theorem find?_key_eq_of_nodup : ∀ (l : List EventRec),
    ((l.map eventKey).Nodup) → ∀ e ∈ l,
      l.find? (fun x => eventKey x == eventKey e) = some e := by
  intro l
  induction l with
  | nil => intro _ e he; cases he
  | cons a rest ih =>
    intro hnd e he
    rw [List.map_cons] at hnd
    rcases List.nodup_cons.mp hnd with ⟨ha, hrest⟩
    rcases List.mem_cons.mp he with rfl | he
    · simp [List.find?_cons]
    · by_cases hk : eventKey a = eventKey e
      · exfalso
        exact ha (hk ▸ List.mem_map_of_mem eventKey he)
      · have hbeq : (eventKey a == eventKey e) = false := by
          simp [hk]
        simp only [List.find?_cons, hbeq]
        exact ih hrest e he

theorem contactKey_mkContact (today : String) (m : Member) :
    contactKey (mkContact today m) = lowerStr (strTrim m.name) := rfl

theorem harvestFold_keys : ∀ (today : String) (ms : List Member) (seen : List String),
    ((harvestFold today ms seen).map contactKey).Nodup ∧
      ∀ k ∈ (harvestFold today ms seen).map contactKey, k ∉ seen := by
  intro today ms
  induction ms with
  | nil => intro seen; simp [harvestFold]
  | cons m rest ih =>
    intro seen
    rw [harvestFold]
    split_ifs with h
    · exact ih seen
    · rcases not_or.mp h with ⟨hne, hnotseen⟩
      rw [List.map_cons]
      constructor
      · refine List.nodup_cons.mpr ⟨?_, (ih (lowerStr (strTrim m.name) :: seen)).1⟩
        intro hmem
        rw [contactKey_mkContact] at hmem
        exact (ih (lowerStr (strTrim m.name) :: seen)).2 _ hmem (List.mem_cons_self _ _)
      · intro k hk
        rcases List.mem_cons.mp hk with hk | hk
        · rw [hk, contactKey_mkContact]
          exact hnotseen
        · intro hks
          exact (ih (lowerStr (strTrim m.name) :: seen)).2 _ hk (List.mem_cons_of_mem _ hks)

theorem strMk_eq_empty_iff {l : List Char} : (⟨l⟩ : String) = "" ↔ l = [] := by
  constructor
  · intro h
    have := congrArg String.toList h
    simpa using this
  · intro h
    rw [h]

theorem lowerStr_eq_empty_iff {s : String} : lowerStr s = "" ↔ s = "" := by
  constructor
  · intro h
    have hl := strMk_eq_empty_iff.mp h
    have : s.toList = [] := List.map_eq_nil_iff.mp hl
    exact String.ext (by simpa using this)
  · intro h
    rw [h]
    rfl

theorem harvestFold_mem_name : ∀ (today : String) (ms : List Member) (seen : List String),
    ∀ c ∈ harvestFold today ms seen, strTrim c.name ≠ "" := by
  intro today ms
  induction ms with
  | nil => intro seen c hc; cases hc
  | cons m rest ih =>
    intro seen c hc
    rw [harvestFold] at hc
    split_ifs at hc with h
    · exact ih seen c hc
    · rcases not_or.mp h with ⟨hne, -⟩
      rcases List.mem_cons.mp hc with rfl | hc
      · have hname : strTrim m.name ≠ "" := by
          intro hz
          exact hne (by rw [hz]; rfl)
        have hlist : wsTrim m.name.toList ≠ [] := by
          intro hz
          exact hname (by simpa [strTrim, strMk_eq_empty_iff] using hz)
        have h2 := wsTrim_wsTrim_ne_nil hlist
        show strTrim (mkContact today m).name ≠ ""
        have : strTrim (mkContact today m).name = ⟨wsTrim (wsTrim m.name.toList)⟩ := rfl
        rw [this]
        simpa [strMk_eq_empty_iff] using h2
      · exact ih (lowerStr (strTrim m.name) :: seen) c hc

/-! ### Claim theorems: pagination bounds, dedup, invariants -/

/-- C1 counterexample: the claim is false for the harvester.  Under the
adversarial run in which every member-directory page reports
`Page 1 of 2` and a next-page control is always found, the
`search_by_profession` loop never terminates: for no amount of fuel
does the fuel-indexed embedding return a result. -/
theorem profLoop_unbounded_cex :
    ¬ ∃ fuel, (profLoop advPages advNext advNext fuel 0 []).isSome = true := by
  rintro ⟨fuel, h⟩
  rw [profLoop_adv_none] at h
  cases h

/-- C1 (amended).  The `get_my_registrations` loop performs at most 20
page iterations and the `search_members` loop at most 5, for every
sequence of portal page-parse results; but the `search_by_profession`
loop of the contact harvester has no configured iteration bound — on
the adversarial run that always reports more pages with a next control
present it runs forever (the fuel-indexed embedding returns `none` for
every fuel). -/
theorem pagination_iteration_bounds :
    (∀ (pages : Nat → RegPage) (nextFound : Nat → Bool),
        (regLoop pages nextFound 1 [] 0).iters ≤ 20) ∧
    (∀ (pages : Nat → MemPage) (nextFound : Nat → Bool),
        (memLoop pages nextFound 1 [] 0).2 ≤ 5) ∧
    (∀ fuel, profLoop advPages advNext advNext fuel 0 [] = none) := by
  refine ⟨?_, ?_, ?_⟩
  · intro pages nextFound
    have := regLoop_iters_bound pages nextFound 20 1 [] 0 (by omega)
    omega
  · intro pages nextFound
    have := memLoop_iters_bound pages nextFound 4 1 [] 0 (by omega)
    omega
  · intro fuel
    exact profLoop_adv_none fuel 0 []

/-- C3.  Identity keys are unique in each extraction output: in the
harvester's aggregated output the lower-cased names are pairwise
distinct (so of two scraped members whose names differ only in case or
surrounding whitespace, at most one survives), and in
`get_my_registrations` the `eventName|startDate` keys of the returned
events are pairwise distinct and every returned event is the
first-encountered scraped record with its key. -/
theorem dedup_unique_identity_keys :
    (∀ (today : String) (ms : List Member),
        ((harvestFold today ms []).map contactKey).Nodup) ∧
    (∀ l : List EventRec,
        ((dedupEvents l []).map eventKey).Nodup ∧
        ∀ e ∈ dedupEvents l [], l.find? (fun x => eventKey x == eventKey e) = some e) := by
  constructor
  · intro today ms
    exact (harvestFold_keys today ms []).1
  · intro l
    refine ⟨(dedupEvents_keys l []).1, ?_⟩
    intro e he
    have h1 := find?_key_eq_of_nodup (dedupEvents l []) (dedupEvents_keys l []).1 e he
    have h2 := dedupEvents_find? l [] (eventKey e) (by simp)
    rw [← h2]
    exact h1

/-- C3 witness: two members whose names differ only in case and
whitespace produce an output with pairwise-distinct keys, and of two
registration records with the same key the survivor is the first
scraped one — both evaluated on concrete inputs. -/
theorem dedup_unique_identity_keys_witness :
    ((harvestFold ("2024-01-01")
        [⟨"Ada Lovelace", "", "", "", "", "", "", "", ""⟩,
         ⟨"  ADA LOVELACE ", "", "", "", "", "", "", "", ""⟩] []).map
      contactKey).Nodup ∧
    [c3evt₁, c3evt₂].find? (fun x => eventKey x == eventKey c3evt₁) = some c3evt₁ :=
  ⟨dedup_unique_identity_keys.1 ("2024-01-01") _,
   (dedup_unique_identity_keys.2 [c3evt₁, c3evt₂]).2 c3evt₁ (by decide)⟩

/-- C9.  The dictionary returned by `get_my_registrations` is internally
consistent for every portal run: `total` equals the length of `events`,
and `events` is exactly the first-occurrence deduplication of the
scraped records — an order-preserving subsequence of the concatenated
page results in which each element is the first scraped record bearing
its key. -/
theorem get_my_registrations_consistent :
    ∀ (pages : Nat → RegPage) (nextFound : Nat → Bool),
      (get_my_registrations pages nextFound).total =
        (get_my_registrations pages nextFound).events.length ∧
      (get_my_registrations pages nextFound).events.Sublist
        (regLoop pages nextFound 1 [] 0).allEvents ∧
      ∀ e ∈ (get_my_registrations pages nextFound).events,
        (regLoop pages nextFound 1 [] 0).allEvents.find?
          (fun x => eventKey x == eventKey e) = some e := by
  intro pages nextFound
  refine ⟨rfl, dedupEvents_sublist _ _, ?_⟩
  intro e he
  have h1 := find?_key_eq_of_nodup _ (dedupEvents_keys (regLoop pages nextFound 1 [] 0).allEvents []).1 e he
  have h2 := dedupEvents_find? (regLoop pages nextFound 1 [] 0).allEvents [] (eventKey e) (by simp)
  rw [← h2]
  exact h1

/-- C9 witness: the consistency statement instantiated on the concrete
one-page run, with the membership hypothesis discharged by computing
the loop and the dedup pass. -/
theorem get_my_registrations_consistent_witness :
    (get_my_registrations w9pages w9next).total =
      (get_my_registrations w9pages w9next).events.length ∧
    (regLoop w9pages w9next 1 [] 0).allEvents.find?
      (fun x => eventKey x == eventKey c3evt₁) = some c3evt₁ := by
  have h := get_my_registrations_consistent w9pages w9next
  refine ⟨h.1, ?_⟩
  apply h.2.2
  show c3evt₁ ∈ dedupEvents (regLoop w9pages w9next 1 [] 0).allEvents []
  have hreg : regLoop w9pages w9next 1 [] 0 = ⟨[c3evt₁], 1, 1⟩ := by
    rw [regLoop]
    simp [w9pages, w9next]
  rw [hreg]
  simp [dedupEvents]

/-- C10.  The contact list that `harvest` writes to `contacts.json` is
sorted in non-decreasing order of lower-cased name, and no record in it
has an empty trimmed name. -/
theorem harvest_output_sorted_and_nonempty :
    ∀ (today : String) (ms : List Member),
      (harvestContacts today ms).Pairwise
        (fun a b => lowerStr a.name ≤ lowerStr b.name) ∧
      ∀ c ∈ harvestContacts today ms, strTrim c.name ≠ "" := by
  intro today ms
  constructor
  · have htrans : ∀ a b c : Contact,
        contactLE a b = true → contactLE b c = true → contactLE a c = true := by
      intro a b c hab hbc
      exact decide_eq_true (le_trans (of_decide_eq_true hab) (of_decide_eq_true hbc))
    have htotal : ∀ a b : Contact, (contactLE a b || contactLE b a) = true := by
      intro a b
      rcases le_total (lowerStr a.name) (lowerStr b.name) with h | h <;>
        simp [contactLE, h]
    have hs := List.sorted_mergeSort htrans htotal (harvestFold today ms [])
    exact hs.imp fun h => of_decide_eq_true h
  · intro c hc
    have hperm := List.mergeSort_perm (harvestFold today ms []) contactLE
    have hc' : c ∈ harvestFold today ms [] := hperm.mem_iff.mp hc
    exact harvestFold_mem_name today ms [] c hc'

/-- C10 witness: the sorted output of a concrete two-member harvest,
with the membership hypothesis of the nonempty-name part discharged by
computation. -/
theorem harvest_output_sorted_and_nonempty_witness :
    strTrim (mkContact ("2024-01-01") ⟨" Bob ", "", "", "", "", "", "", "", ""⟩).name ≠ "" :=
  (harvest_output_sorted_and_nonempty ("2024-01-01")
      [⟨" Bob ", "", "", "", "", "", "", "", ""⟩]).2
    (mkContact ("2024-01-01") ⟨" Bob ", "", "", "", "", "", "", "", ""⟩)
    ((List.mergeSort_perm (harvestFold ("2024-01-01")
        [⟨" Bob ", "", "", "", "", "", "", "", ""⟩] []) contactLE).mem_iff.mpr
      (by decide))

/-- C5.  With credentials present: if after navigation the URL no longer
contains the login path, `login()` returns success without filling or
submitting the form (and marks the session authenticated); if the URL
after submitting still contains the login path, `login()` returns
failure and the logged-in flag is false afterwards. -/
theorem login_redirect_and_failure :
    ∀ (email password : String) (w : LoginWorld),
      email ≠ "" → password ≠ "" →
      (strContains w.urlAfterGoto loginPath = false →
        login email password w = .ok ⟨true, true, false, false⟩) ∧
      (strContains w.urlAfterGoto loginPath = true →
        strContains w.urlAfterSubmit loginPath = true →
        login email password w = .ok ⟨false, false, true, true⟩) := by
  intro email password w he hp
  constructor
  · intro hgoto
    simp [login, he, hp, hgoto]
  · intro hgoto hsubmit
    simp [login, he, hp, hgoto, hsubmit]

/-- C5 witness: both branches evaluated on concrete URLs. -/
theorem login_redirect_and_failure_witness :
    login ("user@example.com") ("pw") ⟨"https://hub.provisors.com/personalsnapshot", ""⟩ =
      .ok ⟨true, true, false, false⟩ ∧
    login ("user@example.com") ("pw")
        ⟨"https://hub.provisors.com/NC__Login", "https://hub.provisors.com/NC__Login?error=1"⟩ =
      .ok ⟨false, false, true, true⟩ :=
  ⟨(login_redirect_and_failure ("user@example.com") ("pw") _ (by decide) (by decide)).1
      (by decide),
   (login_redirect_and_failure ("user@example.com") ("pw") _ (by decide) (by decide)).2
      (by decide) (by decide)⟩

/-- C6.  Without a register/RSVP control the result is `success=false`
with a descriptive reason (returned, not raised — the model is a total
function into outcomes); with `registration complete` in the page text
after the first click the result is `success=true` with no confirm
click; and when neither check finds a confirmation phrase the result is
`success=false` carrying captured page text. -/
theorem register_for_event_outcomes :
    ∀ w : RegisterWorld,
      (w.hasRegisterBtn = false →
        register_for_event w =
          ⟨false, some ("No Register/RSVP button found on page"), none, false⟩) ∧
      (w.hasRegisterBtn = true →
        strContains (lowerStr (strTake 3000 w.textAfterClick)) "registration complete" = true →
        (register_for_event w).success = true ∧
        (register_for_event w).confirmClicked = false) ∧
      (w.hasRegisterBtn = true →
        anyWordIn confirmWordsFirst (strTake 3000 w.textAfterClick) = false →
        anyWordIn confirmWordsSecond (strTake 3000 w.textAfterConfirm) = false →
        (register_for_event w).success = false ∧
        (register_for_event w).page_text.isSome = true) := by
  intro w
  refine ⟨?_, ?_, ?_⟩
  · intro hb
    simp [register_for_event, hb]
  · intro hb hphrase
    have hany : anyWordIn confirmWordsFirst (strTake 3000 w.textAfterClick) = true := by
      refine List.any_eq_true.mpr ⟨"registration complete", ?_, hphrase⟩
      simp [confirmWordsFirst]
    simp [register_for_event, hb, hany]
  · intro hb h₁ h₂
    by_cases hc : w.hasConfirmBtn
    · simp [register_for_event, hb, h₁, h₂, hc]
    · simp [register_for_event, hb, h₁, hc]

/-- C6 witness: the three branches evaluated on concrete worlds. -/
theorem register_for_event_outcomes_witness :
    register_for_event ⟨false, "", false, ""⟩ =
      ⟨false, some ("No Register/RSVP button found on page"), none, false⟩ ∧
    ((register_for_event ⟨true, "Your Registration Complete!", true, ""⟩).success = true ∧
      (register_for_event ⟨true, "Your Registration Complete!", true, ""⟩).confirmClicked = false) ∧
    ((register_for_event ⟨true, "please review your order", true, "still pending"⟩).success = false ∧
      (register_for_event ⟨true, "please review your order", true, "still pending"⟩).page_text.isSome = true) :=
  ⟨(register_for_event_outcomes ⟨false, "", false, ""⟩).1 rfl,
   (register_for_event_outcomes ⟨true, "Your Registration Complete!", true, ""⟩).2.1
      rfl (by decide),
   (register_for_event_outcomes ⟨true, "please review your order", true, "still pending"⟩).2.2
      rfl (by decide) (by decide)⟩

/-- C8.  When every sub-operation succeeds, `full_sync` returns the one
aggregate assembled from their values in the fixed order
snapshot → registrations → upcoming-events → event-search → groups;
and when any sub-operation raises (all earlier ones having succeeded),
`full_sync` propagates exactly that error and returns no partial
aggregate. -/
theorem full_sync_sequential_all_or_nothing :
    ∀ {ε A B C D E : Type} (now : String) (li : Except ε Unit) (sn : Except ε A)
      (re : Except ε B) (ev : Except ε C) (se : Except ε D) (gr : Except ε E),
      (∀ a b c d e, li = .ok () → sn = .ok a → re = .ok b → ev = .ok c →
        se = .ok d → gr = .ok e →
        full_sync now li sn re ev se gr = .ok ⟨true, now, a, b, c, d, e⟩) ∧
      (∀ err : ε,
        (li = .error err → full_sync now li sn re ev se gr = .error err) ∧
        (li = .ok () → sn = .error err →
          full_sync now li sn re ev se gr = .error err) ∧
        (∀ a, li = .ok () → sn = .ok a → re = .error err →
          full_sync now li sn re ev se gr = .error err) ∧
        (∀ a b, li = .ok () → sn = .ok a → re = .ok b → ev = .error err →
          full_sync now li sn re ev se gr = .error err) ∧
        (∀ a b c, li = .ok () → sn = .ok a → re = .ok b → ev = .ok c →
          se = .error err → full_sync now li sn re ev se gr = .error err) ∧
        (∀ a b c d, li = .ok () → sn = .ok a → re = .ok b → ev = .ok c →
          se = .ok d → gr = .error err →
          full_sync now li sn re ev se gr = .error err)) := by
  intro ε A B C D E now li sn re ev se gr
  constructor
  · intro a b c d e h₀ h₁ h₂ h₃ h₄ h₅
    subst h₀; subst h₁; subst h₂; subst h₃; subst h₄; subst h₅
    rfl
  · intro err
    refine ⟨?_, ?_, ?_, ?_, ?_, ?_⟩
    · intro h₀
      subst h₀; rfl
    · intro h₀ h₁
      subst h₀; subst h₁; rfl
    · intro a h₀ h₁ h₂
      subst h₀; subst h₁; subst h₂; rfl
    · intro a b h₀ h₁ h₂ h₃
      subst h₀; subst h₁; subst h₂; subst h₃; rfl
    · intro a b c h₀ h₁ h₂ h₃ h₄
      subst h₀; subst h₁; subst h₂; subst h₃; subst h₄; rfl
    · intro a b c d h₀ h₁ h₂ h₃ h₄ h₅
      subst h₀; subst h₁; subst h₂; subst h₃; subst h₄; subst h₅; rfl

/-- C8 witness: the all-ok aggregate and one mid-sequence error, at
concrete values. -/
theorem full_sync_sequential_witness :
    @full_sync String Nat Nat Nat Nat Nat ("t0") (.ok ()) (.ok 1) (.ok 2) (.ok 3)
        (.ok 4) (.ok 5) = .ok ⟨true, "t0", 1, 2, 3, 4, 5⟩ ∧
    @full_sync String Nat Nat Nat Nat Nat ("t0") (.ok ()) (.ok 1) (.error ("boom"))
        (.ok 3) (.ok 4) (.ok 5) = .error ("boom") :=
  ⟨(@full_sync_sequential_all_or_nothing String Nat Nat Nat Nat Nat ("t0") (.ok ())
      (.ok 1) (.ok 2) (.ok 3) (.ok 4) (.ok 5)).1 1 2 3 4 5 rfl rfl rfl rfl rfl rfl,
   ((@full_sync_sequential_all_or_nothing String Nat Nat Nat Nat Nat ("t0") (.ok ())
      (.ok 1) (.error ("boom")) (.ok 3) (.ok 4) (.ok 5)).2 ("boom")).2.2.1 1 rfl rfl rfl⟩

set_option maxRecDepth 100000 in
/-- C7 evaluation at the failing input.  Both markers are present and in
order, and the generated block escapes the backslash in the name to
`name:'A\\B'`; yet the replacement path runs the block through
`re.sub`'s template processing, so the page that comes back contains
the collapsed `name:'A\B'` and not the generated block — the block is
not embedded verbatim.  The marker-free insertion path, by contrast,
embeds the very same block character for character. -/
theorem embed_resub_collapses_backslashes :
    strContains c7Html START_MARKER = true ∧
    strContains c7Html END_MARKER = true ∧
    strContains (jsBlockOf c7Contacts) "name:'A\\\\B'" = true ∧
    (embedHtml c7Contacts c7Html).map
      (fun h => strContains h ("name:'A\\\\B'")) = some false ∧
    (embedHtml c7Contacts c7Html).map
      (fun h => strContains h ("name:'A\\B'")) = some true ∧
    (embedHtml c7Contacts c7HtmlAnchorOnly).map
      (fun h => strContains h (jsBlockOf c7Contacts)) = some true := by
  refine ⟨by decide, by decide, by decide, by decide, by decide, by decide⟩

end ProVisors
